import Mathlib

/-!
Verification development for the plantalyze2 leaf-disease pipeline.

The definitions below shallowly embed the Python source under
src/backend: tensors are modelled numpy-style as a row-major flat
buffer (a total function from flat index to rational value) together
with a shape list; images and masks are dense grids modelled as total
functions from coordinates to 8-bit values represented in ℕ; the
float arithmetic of the source is modelled exactly over ℚ.
-/

/-- A numpy ndarray of rationals: row-major flat data plus a shape.
Models the `prediction` array handled by process_unet_output in
src/backend/segmentation.py. -/
structure NDTensor where
  shape : List ℕ
  data : ℕ → ℚ

/-- A numpy ndarray of uint8 values (mask output of the decoder). -/
structure NDMask where
  shape : List ℕ
  data : ℕ → ℕ

/-- numpy ndarray.ndim: the length of the shape. -/
def NDTensor.ndim (t : NDTensor) : ℕ := t.shape.length

/-- numpy shape[-1]: the last entry of the shape (0 for an empty shape). -/
def NDTensor.lastDim (t : NDTensor) : ℕ := t.shape.getLastD 0

/-- numpy ndarray.squeeze(): drop all axes of extent 1 (the flat
row-major buffer is unchanged). -/
def squeezeShape (s : List ℕ) : List ℕ := s.filter (fun d => d != 1)

/-- C-style truncation of a rational toward zero, as performed by
numpy float-to-integer casts. -/
def truncToInt (x : ℚ) : ℤ := if 0 ≤ x then ⌊x⌋ else ⌈x⌉

/-- numpy astype(np.uint8) applied to a float value: truncate toward
zero and reduce modulo 256. -/
def toUint8 (x : ℚ) : ℕ := (truncToInt x % 256).toNat

/-- np.argmax over the values f 0, ..., f (c-1): index of the maximum,
ties broken by the lowest index (numpy returns the first occurrence). -/
def argmaxIdx (f : ℕ → ℚ) : ℕ → ℕ
  | 0 => 0
  | n + 1 => if f (argmaxIdx f n) < f n then n else argmaxIdx f n

/-- The class-to-value mapping of segmentation.py lines 148-149:
`mapping = {0: 0, 1: 128, 2: 255}` read through `mapping.get(x, 255)`,
so every key other than 0, 1 and 2 yields 255. -/
def classToVal (k : ℕ) : ℕ :=
  if k = 0 then 0 else if k = 1 then 128 else 255

/-- Shallow embedding of process_unet_output
(src/backend/segmentation.py lines 115-173).

Case 1 (ndim = 3 and shape[-1] >= 3): per-pixel argmax over the last
axis, cast to uint8 (`astype(np.uint8)`, i.e. mod 256), then mapped
through classToVal.  Case 2 (ndim = 3 and shape[-1] = 2): per-pixel
argmax over the two channels, cast to uint8 and multiplied by 255
(again through a uint8 array).  Otherwise (the `else` of the source):
squeeze when 3-dimensional, scale by 255, cast to uint8, and band the
result with thresholds 85 and 170.  The source raises nothing in any
branch; the function is total. -/
def process_unet_output (p : NDTensor) : NDMask :=
  if p.ndim = 3 ∧ 3 ≤ p.lastDim then
    { shape := p.shape.dropLast,
      data := fun i =>
        classToVal (argmaxIdx (fun j => p.data (i * p.lastDim + j)) p.lastDim % 256) }
  else if p.ndim = 3 ∧ p.lastDim = 2 then
    { shape := p.shape.dropLast,
      data := fun i => argmaxIdx (fun j => p.data (i * 2 + j)) 2 % 256 * 255 % 256 }
  else
    { shape := if p.ndim = 3 then squeezeShape p.shape else p.shape,
      data := fun i =>
        if toUint8 (p.data i * 255) < 85 then 0
        else if toUint8 (p.data i * 255) < 170 then 128
        else 255 }

/-- The three decoding cases enumerated by the specification of
MaskDecoder.decode: 3-D with last dimension >= 3, 3-D with last
dimension exactly 2, and 2-D or 3-D with last dimension 1. -/
def matchesDecodingCase (t : NDTensor) : Prop :=
  (t.ndim = 3 ∧ 3 ≤ t.lastDim) ∨ (t.ndim = 3 ∧ t.lastDim = 2) ∨
    t.ndim = 2 ∨ (t.ndim = 3 ∧ t.lastDim = 1)

instance (t : NDTensor) : Decidable (matchesDecodingCase t) := by
  unfold matchesDecodingCase; infer_instance

/-- Channel data with 257 channels at a single pixel, where channel
256 holds the strictly largest value. -/
def bigChannelData : ℕ → ℚ := fun j => if j = 256 then 1 else 0

/-- A concrete 3-D tensor with 257 channels at its single pixel, where
channel 256 holds the strictly largest value. -/
def bigChannelTensor : NDTensor :=
  { shape := [1, 1, 257], data := bigChannelData }

/-- A concrete 4-dimensional tensor (batch axis not stripped), matching
none of the three decoding cases. -/
def fourDimTensor : NDTensor :=
  { shape := [1, 2, 2, 3], data := fun _ => 0 }

/-- The (2,2) single-channel tensor of the specification scenario, with
row-major values 0, 0.3, 0.6, 1. -/
def scenarioTensor : NDTensor :=
  { shape := [2, 2],
    data := fun i => if i = 0 then 0 else if i = 1 then 3/10 else if i = 2 then 3/5 else 1 }

/-- A 2-D mask at a fixed resolution: the value grid is a total
function; only coordinates below the bounds are meaningful. -/
structure Mask where
  height : ℕ
  width : ℕ
  pix : ℕ → ℕ → ℕ

/-- Modelled from the spec: MaskResizer / cv2.resize with
INTER_NEAREST (called at src/backend/segmentation.py lines 100-104;
the resize routine itself lives in the external OpenCV library).  For
each output pixel, copy the single nearest source pixel under the
scale mapping: source index = floor(dst index * src extent / dst
extent), clamped to the source bounds. -/
def resizeNN (m : Mask) (tw th : ℕ) : Mask :=
  { height := th, width := tw,
    pix := fun y x =>
      m.pix (min (y * m.height / th) (m.height - 1))
            (min (x * m.width / tw) (m.width - 1)) }

/-- Pixel count of a given value in a mask, as in
src/backend/app.py lines 144-146 (`np.sum(mask == v)`). -/
def countVal (m : Mask) (v : ℕ) : ℕ :=
  ∑ y ∈ Finset.range m.height, ∑ x ∈ Finset.range m.width,
    if m.pix y x = v then 1 else 0

/-- The maskStats record computed by analyze_leaf
(src/backend/app.py lines 144-178): percentages count/total*100 for
the values 0, 128 and 255, with total = height*width (mask.size). -/
def maskStats (m : Mask) : ℚ × ℚ × ℚ :=
  ((countVal m 0 : ℚ) / ((m.height * m.width : ℕ) : ℚ) * 100,
   (countVal m 128 : ℚ) / ((m.height * m.width : ℕ) : ℚ) * 100,
   (countVal m 255 : ℚ) / ((m.height * m.width : ℕ) : ℚ) * 100)

/-- The 10 x 10 mask with 30 background, 50 healthy and 20 diseased
pixels used by the statistics scenario. -/
def statsMask : Mask :=
  { height := 10, width := 10,
    pix := fun y x =>
      if y * 10 + x < 30 then 0 else if y * 10 + x < 80 then 128 else 255 }

/-- Shallow embedding of create_colored_mask
(src/backend/segmentation.py lines 176-198): the output is initialized
to zeros and the three canonical values are assigned their colors
(black, green, red as RGB triples); the conditions are mutually
exclusive, so the masked assignments amount to this case split, and
any other pixel value keeps the zero initialization. -/
def create_colored_mask (m : Mask) : ℕ → ℕ → ℕ × ℕ × ℕ := fun y x =>
  if m.pix y x = 0 then (0, 0, 0)
  else if m.pix y x = 128 then (0, 255, 0)
  else if m.pix y x = 255 then (255, 0, 0)
  else (0, 0, 0)

/-- An RGB image: 8-bit channel values held in ℕ, three channels. -/
structure Image where
  height : ℕ
  width : ℕ
  pix : ℕ → ℕ → Fin 3 → ℕ

/-- Sum of one channel over the whole image, in ℚ. -/
def chanSum (img : Image) (c : Fin 3) : ℚ :=
  ∑ y ∈ Finset.range img.height, ∑ x ∈ Finset.range img.width,
    (img.pix y x c : ℚ)

/-- np.mean(img[:, :, c]) of src/backend/preprocessing.py line 109. -/
def channelMean (img : Image) (c : Fin 3) : ℚ :=
  chanSum img c / ((img.height * img.width : ℕ) : ℚ)

/-- np.mean(img) of src/backend/preprocessing.py line 105: the mean
over all pixels and all three channels. -/
def globalMean (img : Image) : ℚ :=
  (chanSum img 0 + chanSum img 1 + chanSum img 2) /
    ((img.height * img.width * 3 : ℕ) : ℚ)

/-- np.clip(x, 0, 255) followed by astype(np.uint8)
(src/backend/preprocessing.py line 114): the clipped value is
nonnegative, so the uint8 cast is plain truncation. -/
def clipUint8 (x : ℚ) : ℕ :=
  if x ≤ 0 then 0 else if 255 ≤ x then 255 else (⌊x⌋).toNat

/-- Shallow embedding of gray_world_white_balance
(src/backend/preprocessing.py lines 91-116): each channel whose mean
is positive is scaled by globalMean / channelMean; a channel with mean
0 is left unscaled; afterwards the whole float image is clipped to
[0, 255] and truncated to uint8. -/
def gray_world_white_balance (img : Image) : Image :=
  { img with
    pix := fun y x c =>
      clipUint8
        (if 0 < channelMean img c then
          (img.pix y x c : ℚ) * (globalMean img / channelMean img c)
        else (img.pix y x c : ℚ)) }

/-- Shallow embedding of preprocess_leaf
(src/backend/preprocessing.py lines 11-63).  The result of cv2.imread
is passed in as an Option (none models a file that cannot be decoded,
line 27-30: the function prints an error and returns None).  The white
balance, CLAHE, denoising and sharpening stages call external cv2
routines; they are passed as parameters, since no stage can fail or
alter the success/failure status (the source applies them
unconditionally, lines 33-63). -/
def preprocess_leaf (wb clahe den sharp : Image → Image)
    (decoded : Option Image) : Option Image :=
  match decoded with
  | none => none
  | some img => some (sharp (den (clahe (wb img))))

/-- The preprocessing step of analyze_leaf (src/backend/app.py lines
118-123): a None result from preprocess_leaf raises
ValueError("Preprocessing failed"), which the surrounding handler
turns into the 500 error response; otherwise the pipeline continues
with the preprocessed image. -/
def analyze_leaf_preprocess (wb clahe den sharp : Image → Image)
    (decoded : Option Image) : Except String Image :=
  match preprocess_leaf wb clahe den sharp decoded with
  | none => Except.error "Preprocessing failed"
  | some img => Except.ok img

/-! ## Helper lemmas on the argmax -/

theorem argmaxIdx_lt (f : ℕ → ℚ) (c : ℕ) (hc : 0 < c) : argmaxIdx f c < c := by
  induction c with
  | zero => exact absurd hc (lt_irrefl 0)
  | succ n ih =>
    rw [argmaxIdx]
    split
    · exact Nat.lt_succ_self n
    · rcases Nat.eq_zero_or_pos n with h0 | hpos
      · subst h0; simp [argmaxIdx]
      · exact Nat.lt_succ_of_lt (ih hpos)

theorem le_argmaxIdx (f : ℕ → ℚ) (c j : ℕ) (hj : j < c) :
    f j ≤ f (argmaxIdx f c) := by
  induction c with
  | zero => exact absurd hj (Nat.not_lt_zero j)
  | succ n ih =>
    rw [argmaxIdx]
    split
    · rename_i hlt
      rcases Nat.lt_succ_iff_lt_or_eq.mp hj with h | h
      · exact (ih h).trans (le_of_lt hlt)
      · subst h; exact le_refl _
    · rename_i hge
      rcases Nat.lt_succ_iff_lt_or_eq.mp hj with h | h
      · exact ih h
      · subst h; exact le_of_not_lt hge

theorem argmaxIdx_first (f : ℕ → ℚ) (c j : ℕ) (hj : j < argmaxIdx f c) :
    f j < f (argmaxIdx f c) := by
  induction c with
  | zero => simp [argmaxIdx] at hj
  | succ n ih =>
    rw [argmaxIdx] at hj ⊢
    split
    · rename_i hlt
      rw [if_pos hlt] at hj
      exact lt_of_le_of_lt (le_argmaxIdx f n j hj) hlt
    · rename_i hge
      rw [if_neg hge] at hj
      exact ih hj

theorem argmaxIdx_of_strict_max (f : ℕ → ℚ) (c k : ℕ) (hk : k < c)
    (hmax : ∀ j, j < c → j ≠ k → f j < f k) : argmaxIdx f c = k := by
  by_contra hne
  have ha : argmaxIdx f c < c := argmaxIdx_lt f c (Nat.pos_of_ne_zero (by omega))
  have h1 : f k ≤ f (argmaxIdx f c) := le_argmaxIdx f c k hk
  have h2 : f (argmaxIdx f c) < f k := hmax _ ha (fun h => hne h)
  exact absurd h1 (not_le_of_lt h2)

theorem argmaxIdx_two (f : ℕ → ℚ) :
    argmaxIdx f 2 = if f 0 < f 1 then 1 else 0 := by
  simp [argmaxIdx]

/-! ## Computation lemmas for the decoder branches -/

theorem decode_multiclass (h w c : ℕ) (d : ℕ → ℚ) (hc : 3 ≤ c) :
    process_unet_output ⟨[h, w, c], d⟩ =
      { shape := [h, w],
        data := fun i => classToVal (argmaxIdx (fun j => d (i * c + j)) c % 256) } := by
  have h3 : NDTensor.ndim ⟨[h, w, c], d⟩ = 3 := rfl
  have hl : NDTensor.lastDim ⟨[h, w, c], d⟩ = c := rfl
  unfold process_unet_output
  rw [if_pos ⟨h3, by rw [hl]; exact hc⟩]
  simp [hl]

theorem decode_binary (h w : ℕ) (d : ℕ → ℚ) :
    process_unet_output ⟨[h, w, 2], d⟩ =
      { shape := [h, w],
        data := fun i => argmaxIdx (fun j => d (i * 2 + j)) 2 % 256 * 255 % 256 } := by
  have h3 : NDTensor.ndim ⟨[h, w, 2], d⟩ = 3 := rfl
  have hl : NDTensor.lastDim ⟨[h, w, 2], d⟩ = 2 := rfl
  unfold process_unet_output
  rw [if_neg (by rw [hl]; omega), if_pos ⟨h3, hl⟩]
  rfl

theorem decode_else (t : NDTensor)
    (h1 : ¬(t.ndim = 3 ∧ 3 ≤ t.lastDim)) (h2 : ¬(t.ndim = 3 ∧ t.lastDim = 2)) :
    process_unet_output t =
      { shape := if t.ndim = 3 then squeezeShape t.shape else t.shape,
        data := fun i =>
          if toUint8 (t.data i * 255) < 85 then 0
          else if toUint8 (t.data i * 255) < 170 then 128
          else 255 } := by
  unfold process_unet_output
  rw [if_neg h1, if_neg h2]

/-! ## Value lemmas for the decoder -/

theorem classToVal_mem (k : ℕ) :
    classToVal k = 0 ∨ classToVal k = 128 ∨ classToVal k = 255 := by
  unfold classToVal
  split
  · exact Or.inl rfl
  · split
    · exact Or.inr (Or.inl rfl)
    · exact Or.inr (Or.inr rfl)

theorem process_output_mem (t : NDTensor) (i : ℕ) :
    (process_unet_output t).data i = 0 ∨ (process_unet_output t).data i = 128 ∨
      (process_unet_output t).data i = 255 := by
  unfold process_unet_output
  split
  · exact classToVal_mem _
  · split
    · dsimp only
      rw [argmaxIdx_two]
      split
      · exact Or.inr (Or.inr rfl)
      · exact Or.inl rfl
    · dsimp only
      split
      · exact Or.inl rfl
      · split
        · exact Or.inr (Or.inl rfl)
        · exact Or.inr (Or.inr rfl)

theorem toUint8_of_nonneg_le (x : ℚ) (h0 : 0 ≤ x) (h1 : x ≤ 255) :
    toUint8 x = (⌊x⌋).toNat := by
  unfold toUint8 truncToInt
  rw [if_pos h0]
  congr 1
  apply Int.emod_eq_of_lt (Int.floor_nonneg.mpr h0)
  have hle : (⌊x⌋ : ℚ) ≤ 255 := (Int.floor_le x).trans h1
  have hle2 : ⌊x⌋ ≤ 255 := by exact_mod_cast hle
  omega

theorem band_toUint8 (x : ℚ) (h0 : 0 ≤ x) (h1 : x ≤ 255) :
    (if toUint8 x < 85 then (0 : ℕ) else if toUint8 x < 170 then 128 else 255)
      = (if x < 85 then 0 else if x < 170 then 128 else 255) := by
  rw [toUint8_of_nonneg_le x h0 h1]
  have hfl : 0 ≤ ⌊x⌋ := Int.floor_nonneg.mpr h0
  have c85 : ⌊x⌋ < 85 ↔ x < 85 := Int.floor_lt.trans (by norm_num)
  have c170 : ⌊x⌋ < 170 ↔ x < 170 := Int.floor_lt.trans (by norm_num)
  by_cases hx85 : x < 85
  · have n85 : ⌊x⌋ < 85 := c85.mpr hx85
    rw [if_pos (show (⌊x⌋).toNat < 85 by omega), if_pos hx85]
  · have n85 : ¬ ⌊x⌋ < 85 := fun hcon => hx85 (c85.mp hcon)
    by_cases hx170 : x < 170
    · have n170 : ⌊x⌋ < 170 := c170.mpr hx170
      rw [if_neg (show ¬ (⌊x⌋).toNat < 85 by omega),
          if_pos (show (⌊x⌋).toNat < 170 by omega), if_neg hx85, if_pos hx170]
    · have n170 : ¬ ⌊x⌋ < 170 := fun hcon => hx170 (c170.mp hcon)
      rw [if_neg (show ¬ (⌊x⌋).toNat < 85 by omega),
          if_neg (show ¬ (⌊x⌋).toNat < 170 by omega), if_neg hx85, if_neg hx170]

/-! ## Claim theorems for the decoder -/

/-- C1: for every InferenceTensor whose shape matches one of the three
decoding cases, every pixel of the mask returned by
process_unet_output is one of the values 0, 128, 255. -/
theorem decoder_values_canonical (t : NDTensor) (hm : matchesDecodingCase t) (i : ℕ) :
    (process_unet_output t).data i = 0 ∨ (process_unet_output t).data i = 128 ∨
      (process_unet_output t).data i = 255 :=
  process_output_mem t i

/-- Witness for C1 at a concrete 2-D all-zero tensor. -/
theorem decoder_values_canonical_witness :
    matchesDecodingCase ⟨[1, 1], fun _ => 0⟩ ∧
      ((process_unet_output ⟨[1, 1], fun _ => 0⟩).data 0 = 0 ∨
       (process_unet_output ⟨[1, 1], fun _ => 0⟩).data 0 = 128 ∨
       (process_unet_output ⟨[1, 1], fun _ => 0⟩).data 0 = 255) :=
  ⟨by decide, decoder_values_canonical ⟨[1, 1], fun _ => 0⟩ (by decide) 0⟩

/-- C2 (amended): for every 3-D tensor whose last dimension c >= 3,
process_unet_output assigns each pixel the argmax class over the
channel values (ties broken by the lowest index), reduces that index
modulo 256 (the uint8 cast of the source), and maps the reduced index
0 to 0, 1 to 128, 2 to 255 and everything else to 255.  Whenever
c <= 256 (so the cast cannot wrap) every index >= 3 maps to 255; a
tensor where channel 1 has the strictly largest value at a pixel gives
that pixel 128, and channel 2 strictly dominating gives 255. -/
theorem multiclass_decode (h w c : ℕ) (d : ℕ → ℚ) (hc : 3 ≤ c) (i : ℕ)
    (hi : i < h * w) :
    (argmaxIdx (fun j => d (i * c + j)) c < c
      ∧ (∀ j, j < c → d (i * c + j) ≤ d (i * c + argmaxIdx (fun j => d (i * c + j)) c))
      ∧ (∀ j, j < argmaxIdx (fun j => d (i * c + j)) c →
          d (i * c + j) < d (i * c + argmaxIdx (fun j => d (i * c + j)) c)))
    ∧ (process_unet_output ⟨[h, w, c], d⟩).data i
        = classToVal (argmaxIdx (fun j => d (i * c + j)) c % 256)
    ∧ (c ≤ 256 → 3 ≤ argmaxIdx (fun j => d (i * c + j)) c →
        (process_unet_output ⟨[h, w, c], d⟩).data i = 255)
    ∧ ((∀ j, j < c → j ≠ 1 → d (i * c + j) < d (i * c + 1)) →
        (process_unet_output ⟨[h, w, c], d⟩).data i = 128)
    ∧ ((∀ j, j < c → j ≠ 2 → d (i * c + j) < d (i * c + 2)) →
        (process_unet_output ⟨[h, w, c], d⟩).data i = 255) := by
  have hdata : (process_unet_output ⟨[h, w, c], d⟩).data i
      = classToVal (argmaxIdx (fun j => d (i * c + j)) c % 256) := by
    rw [decode_multiclass h w c d hc]
  refine ⟨⟨argmaxIdx_lt (fun j => d (i * c + j)) c (by omega),
    fun j hj => le_argmaxIdx (fun j => d (i * c + j)) c j hj,
    fun j hj => argmaxIdx_first (fun j => d (i * c + j)) c j hj⟩, hdata, ?_, ?_, ?_⟩
  · intro h256 h3
    rw [hdata, Nat.mod_eq_of_lt
      (lt_of_lt_of_le (argmaxIdx_lt (fun j => d (i * c + j)) c (by omega)) h256)]
    unfold classToVal
    rw [if_neg (by omega), if_neg (by omega)]
  · intro hdom
    rw [hdata, argmaxIdx_of_strict_max (fun j => d (i * c + j)) c 1 (by omega) hdom]
    decide
  · intro hdom
    rw [hdata, argmaxIdx_of_strict_max (fun j => d (i * c + j)) c 2 (by omega) hdom]
    decide

/-- Witness for C2 at a (1,1,3) tensor whose channel 2 strictly
dominates: the pixel decodes to 255. -/
theorem multiclass_decode_witness :
    (process_unet_output ⟨[1, 1, 3], fun j => if j = 2 then (1 : ℚ) else 0⟩).data 0 = 255 :=
  (multiclass_decode 1 1 3 (fun j => if j = 2 then (1 : ℚ) else 0)
    (by decide) 0 (by decide)).2.2.2.2
    (by
      intro j hj hne
      show (if 0 * 3 + j = 2 then (1 : ℚ) else 0) < (if 0 * 3 + 2 = 2 then (1 : ℚ) else 0)
      rw [if_neg (by omega), if_pos (by omega)]
      exact zero_lt_one)

/-- Counterexample to C2 as stated: in a (1,1,257) tensor where
channel 256 strictly dominates, the argmax index is 256 >= 3, yet the
uint8 cast wraps it to 0 and the pixel decodes to 0, not 255. -/
theorem multiclass_wrap_counterexample :
    3 ≤ argmaxIdx (fun j => bigChannelData (0 * 257 + j)) 257
    ∧ (process_unet_output bigChannelTensor).data 0 = 0 := by
  have hargmax : argmaxIdx (fun j => bigChannelData (0 * 257 + j)) 257 = 256 := by
    apply argmaxIdx_of_strict_max (fun j => bigChannelData (0 * 257 + j)) 257 256 (by omega)
    intro j hj hne
    show (if 0 * 257 + j = 256 then (1 : ℚ) else 0)
        < (if 0 * 257 + 256 = 256 then (1 : ℚ) else 0)
    rw [if_neg (by omega), if_pos (by omega)]
    exact zero_lt_one
  refine ⟨by rw [hargmax]; omega, ?_⟩
  have h1 := decode_multiclass 1 1 257 bigChannelData (by omega)
  rw [show bigChannelTensor = ⟨[1, 1, 257], bigChannelData⟩ from rfl, h1]
  dsimp only
  rw [hargmax]
  decide

/-- C5: for every 3-D tensor whose last dimension is exactly 2,
process_unet_output assigns a pixel 0 when channel 0 wins the argmax
(including ties) and 255 when channel 1 strictly wins, and no pixel of
this shape ever receives the healthy-leaf value 128. -/
theorem binary_decode (h w : ℕ) (d : ℕ → ℚ) (i : ℕ) (hi : i < h * w) :
    ((d (i * 2 + 1) ≤ d (i * 2 + 0)) →
      (process_unet_output ⟨[h, w, 2], d⟩).data i = 0)
    ∧ ((d (i * 2 + 0) < d (i * 2 + 1)) →
      (process_unet_output ⟨[h, w, 2], d⟩).data i = 255)
    ∧ (process_unet_output ⟨[h, w, 2], d⟩).data i ≠ 128 := by
  rw [decode_binary h w d]
  dsimp only
  rw [argmaxIdx_two]
  refine ⟨?_, ?_, ?_⟩
  · intro hle
    rw [if_neg (not_lt_of_le hle)]
  · intro hlt
    rw [if_pos hlt]
  · split
    · decide
    · decide

/-- Witness for C5 at a (1,1,2) tensor with equal channels: the tie
goes to channel 0 and the pixel decodes to 0. -/
theorem binary_decode_witness :
    (process_unet_output ⟨[1, 1, 2], fun _ => (0 : ℚ)⟩).data 0 = 0 :=
  (binary_decode 1 1 (fun _ => (0 : ℚ)) 0 (by decide)).1 (by simp)

/-- C3: for every 2-D tensor with values in [0,1], and for every 3-D
tensor with last dimension 1 (squeezed by the source), the decoded
pixel is banded on the value scaled onto [0,255]: scaled value < 85
gives 0, in [85,170) gives 128, and >= 170 gives 255.  The second
conjunct instantiates the claim scenario: the (2,2) tensor with values
0, 0.3, 0.6, 1 decodes to 0, 0, 128, 255 (scaled 0, 76.5, 153, 255). -/
theorem singlechannel_decode :
    (∀ (h w : ℕ) (d : ℕ → ℚ) (i : ℕ), i < h * w → 0 ≤ d i → d i ≤ 1 →
      (process_unet_output ⟨[h, w], d⟩).data i
          = (if d i * 255 < 85 then 0 else if d i * 255 < 170 then 128 else 255)
      ∧ (process_unet_output ⟨[h, w, 1], d⟩).data i
          = (if d i * 255 < 85 then 0 else if d i * 255 < 170 then 128 else 255))
    ∧ ((process_unet_output scenarioTensor).data 0 = 0
      ∧ (process_unet_output scenarioTensor).data 1 = 0
      ∧ (process_unet_output scenarioTensor).data 2 = 128
      ∧ (process_unet_output scenarioTensor).data 3 = 255) := by
  have hband : ∀ (d : ℕ → ℚ) (i : ℕ), 0 ≤ d i → d i ≤ 1 →
      (if toUint8 (d i * 255) < 85 then (0 : ℕ)
        else if toUint8 (d i * 255) < 170 then 128 else 255)
        = (if d i * 255 < 85 then 0 else if d i * 255 < 170 then 128 else 255) := by
    intro d i h0 h1
    exact band_toUint8 (d i * 255) (mul_nonneg h0 (by norm_num))
      (by nlinarith)
  constructor
  · intro h w d i hi h0 h1
    constructor
    · have e := decode_else ⟨[h, w], d⟩
        (fun hcon => by simp [NDTensor.ndim] at hcon)
        (fun hcon => by simp [NDTensor.ndim] at hcon)
      rw [e]
      exact hband d i h0 h1
    · have e := decode_else ⟨[h, w, 1], d⟩
        (fun hcon => by
          have : NDTensor.lastDim ⟨[h, w, 1], d⟩ = 1 := rfl
          omega)
        (fun hcon => by
          have : NDTensor.lastDim ⟨[h, w, 1], d⟩ = 1 := rfl
          omega)
      rw [e]
      exact hband d i h0 h1
  · have e := decode_else scenarioTensor
      (fun hcon => by simp [NDTensor.ndim, scenarioTensor] at hcon)
      (fun hcon => by simp [NDTensor.ndim, scenarioTensor] at hcon)
    rw [e]
    dsimp only
    have d0 : scenarioTensor.data 0 = 0 := rfl
    have d1 : scenarioTensor.data 1 = 3/10 := rfl
    have d2 : scenarioTensor.data 2 = 3/5 := rfl
    have d3 : scenarioTensor.data 3 = 1 := rfl
    have t0 : toUint8 (scenarioTensor.data 0 * 255) = 0 := by
      rw [d0, toUint8_of_nonneg_le _ (by norm_num) (by norm_num)]
      norm_num
    have t1 : toUint8 (scenarioTensor.data 1 * 255) = 76 := by
      rw [d1, toUint8_of_nonneg_le _ (by norm_num) (by norm_num)]
      have : ⌊(3/10 : ℚ) * 255⌋ = 76 := by norm_num [Int.floor_eq_iff]
      rw [this]
      rfl
    have t2 : toUint8 (scenarioTensor.data 2 * 255) = 153 := by
      rw [d2, toUint8_of_nonneg_le _ (by norm_num) (by norm_num)]
      have : ⌊(3/5 : ℚ) * 255⌋ = 153 := by norm_num
      rw [this]
      rfl
    have t3 : toUint8 (scenarioTensor.data 3 * 255) = 255 := by
      rw [d3, toUint8_of_nonneg_le _ (by norm_num) (by norm_num)]
      have hf : ⌊(1 : ℚ) * 255⌋ = 255 := by norm_num
      rw [hf]
      rfl
    rw [t0, t1, t2, t3]
    norm_num

/-- Witness for C3 at a concrete (1,1) all-zero tensor: the single
pixel decodes to 0. -/
theorem singlechannel_decode_witness :
    (process_unet_output ⟨[1, 1], fun _ => (0 : ℚ)⟩).data 0 = 0 := by
  have h := (singlechannel_decode.1 1 1 (fun _ => (0 : ℚ)) 0
    (by decide) (by simp) (by simp)).1
  rw [h]
  simp

/-- C4 (amended): process_unet_output raises no error for shapes
matching none of the three decoding cases; the source has no
UnsupportedTensorShapeError.  Every such input falls through to the
single-channel `else` branch: the output keeps the input shape
(squeezed when 3-dimensional) and every output entry is the
85/170-banded threshold of the scaled input value. -/
theorem unmatched_shape_fallthrough (t : NDTensor) (hnm : ¬ matchesDecodingCase t) :
    (process_unet_output t).shape
        = (if t.ndim = 3 then squeezeShape t.shape else t.shape)
    ∧ ∀ i, (process_unet_output t).data i
        = (if toUint8 (t.data i * 255) < 85 then 0
           else if toUint8 (t.data i * 255) < 170 then 128 else 255) := by
  have h1 : ¬(t.ndim = 3 ∧ 3 ≤ t.lastDim) := fun hc => hnm (Or.inl hc)
  have h2 : ¬(t.ndim = 3 ∧ t.lastDim = 2) := fun hc => hnm (Or.inr (Or.inl hc))
  rw [decode_else t h1 h2]
  exact ⟨rfl, fun i => rfl⟩

/-- Witness for C4 (amended) at the concrete 4-D tensor: decoding
produces a mask of the unchanged 4-D shape. -/
theorem unmatched_shape_fallthrough_witness :
    (process_unet_output fourDimTensor).shape = [1, 2, 2, 3] :=
  ((unmatched_shape_fallthrough fourDimTensor (by decide)).1).trans (by decide)

/-- Counterexample to C4 as stated: the 4-D all-zero tensor matches
none of the three decoding cases, yet process_unet_output returns a
mask (of 4-D shape, with value 0 at entry 0) instead of failing; no
UnsupportedTensorShapeError exists in the source. -/
theorem unsupported_shape_counterexample :
    ¬ matchesDecodingCase fourDimTensor
    ∧ (process_unet_output fourDimTensor).shape = [1, 2, 2, 3]
    ∧ (process_unet_output fourDimTensor).data 0 = 0 := by
  have e := decode_else fourDimTensor (by decide) (by decide)
  refine ⟨by decide, ?_, ?_⟩
  · rw [e]
    decide
  · rw [e]
    dsimp only
    have hd : fourDimTensor.data 0 = 0 := rfl
    rw [hd, toUint8_of_nonneg_le _ (by norm_num) (by norm_num)]
    norm_num

/-- C7: for every Mask with values in {0,128,255} and every integer
scale factor k >= 1, resizing up by factor k with nearest-neighbor
sampling and back down to the original size reproduces the original
mask exactly, pixel for pixel. -/
theorem resize_roundtrip (m : Mask) (k : ℕ) (hk : 1 ≤ k)
    (hh : 0 < m.height) (hw : 0 < m.width)
    (hvals : ∀ y, y < m.height → ∀ x, x < m.width →
      m.pix y x = 0 ∨ m.pix y x = 128 ∨ m.pix y x = 255)
    (y x : ℕ) (hy : y < m.height) (hx : x < m.width) :
    (resizeNN (resizeNN m (k * m.width) (k * m.height)) m.width m.height).pix y x
      = m.pix y x := by
  unfold resizeNN
  dsimp only
  have e1 : min (y * (k * m.height) / m.height) (k * m.height - 1) = y * k := by
    rw [show y * (k * m.height) = y * k * m.height by ring, Nat.mul_div_cancel _ hh]
    apply min_eq_left
    have hstep : (y + 1) * k ≤ m.height * k :=
      Nat.mul_le_mul_right k (by omega)
    have h2 : y * k + k ≤ k * m.height := by
      calc y * k + k = (y + 1) * k := by ring
        _ ≤ m.height * k := hstep
        _ = k * m.height := by ring
    omega
  have e2 : min (x * (k * m.width) / m.width) (k * m.width - 1) = x * k := by
    rw [show x * (k * m.width) = x * k * m.width by ring, Nat.mul_div_cancel _ hw]
    apply min_eq_left
    have hstep : (x + 1) * k ≤ m.width * k :=
      Nat.mul_le_mul_right k (by omega)
    have h2 : x * k + k ≤ k * m.width := by
      calc x * k + k = (x + 1) * k := by ring
        _ ≤ m.width * k := hstep
        _ = k * m.width := by ring
    omega
  rw [e1, e2]
  have hkh : 0 < k * m.height := Nat.mul_pos (by omega) hh
  have hkw : 0 < k * m.width := Nat.mul_pos (by omega) hw
  have e3 : min (y * k * m.height / (k * m.height)) (m.height - 1) = y := by
    rw [show y * k * m.height = y * (k * m.height) by ring, Nat.mul_div_cancel _ hkh]
    exact min_eq_left (by omega)
  have e4 : min (x * k * m.width / (k * m.width)) (m.width - 1) = x := by
    rw [show x * k * m.width = x * (k * m.width) by ring, Nat.mul_div_cancel _ hkw]
    exact min_eq_left (by omega)
  rw [e3, e4]

/-- Witness for C7 at a concrete 2 x 2 mask, scale factor 2. -/
theorem resize_roundtrip_witness :
    (resizeNN (resizeNN ⟨2, 2, fun y x => if y = x then 128 else 0⟩ (2 * 2) (2 * 2))
        2 2).pix 0 1 = 0 :=
  (resize_roundtrip ⟨2, 2, fun y x => if y = x then 128 else 0⟩ 2 (by decide)
    (by decide) (by decide) (by decide) 0 1 (by decide) (by decide)).trans (by decide)

/-- C10: create_colored_mask renders any pixel whose value lies
outside {0,128,255} as black (0,0,0), the same color background pixels
receive, and (being a total case split) raises no error for such
values. -/
theorem colorize_unknown_is_black (m : Mask) (y x : ℕ)
    (hout : ¬(m.pix y x = 0 ∨ m.pix y x = 128 ∨ m.pix y x = 255)) :
    create_colored_mask m y x = (0, 0, 0)
    ∧ ∀ (m2 : Mask) (y2 x2 : ℕ), m2.pix y2 x2 = 0 →
        create_colored_mask m2 y2 x2 = create_colored_mask m y x := by
  push_neg at hout
  obtain ⟨h0, h128, h255⟩ := hout
  constructor
  · simp [create_colored_mask, h0, h128, h255]
  · intro m2 y2 x2 h2
    simp [create_colored_mask, h0, h128, h255, h2]

/-- Witness for C10 at a mask holding the non-canonical value 7. -/
theorem colorize_unknown_is_black_witness :
    create_colored_mask ⟨1, 1, fun _ _ => 7⟩ 0 0 = (0, 0, 0) :=
  (colorize_unknown_is_black ⟨1, 1, fun _ _ => 7⟩ 0 0 (by decide)).1

/-! ## Helper lemmas for the white balance and statistics -/

theorem clipUint8_natCast (v : ℕ) (hv : v ≤ 255) : clipUint8 (v : ℚ) = v := by
  unfold clipUint8
  by_cases h0 : (v : ℚ) ≤ 0
  · rw [if_pos h0]
    have hv0 : (v : ℚ) = 0 := le_antisymm h0 (Nat.cast_nonneg v)
    have : v = 0 := by exact_mod_cast hv0
    omega
  · rw [if_neg h0]
    by_cases h255 : (255 : ℚ) ≤ (v : ℚ)
    · rw [if_pos h255]
      have : (255 : ℕ) ≤ v := by exact_mod_cast h255
      omega
    · rw [if_neg h255, Int.floor_natCast]
      simp

theorem countVal_partition (m : Mask)
    (hvals : ∀ y, y < m.height → ∀ x, x < m.width →
      m.pix y x = 0 ∨ m.pix y x = 128 ∨ m.pix y x = 255) :
    countVal m 0 + countVal m 128 + countVal m 255 = m.height * m.width := by
  unfold countVal
  rw [← Finset.sum_add_distrib, ← Finset.sum_add_distrib]
  have h1 : ∀ y ∈ Finset.range m.height,
      ((∑ x ∈ Finset.range m.width, if m.pix y x = 0 then 1 else 0)
        + (∑ x ∈ Finset.range m.width, if m.pix y x = 128 then 1 else 0)
        + (∑ x ∈ Finset.range m.width, if m.pix y x = 255 then 1 else 0)) = m.width := by
    intro y hy
    rw [← Finset.sum_add_distrib, ← Finset.sum_add_distrib]
    have h2 : ∀ x ∈ Finset.range m.width,
        ((if m.pix y x = 0 then 1 else 0) + (if m.pix y x = 128 then 1 else 0)
          + (if m.pix y x = 255 then 1 else 0)) = 1 := by
      intro x hx
      rcases hvals y (Finset.mem_range.mp hy) x (Finset.mem_range.mp hx) with h | h | h <;>
        simp [h]
    rw [Finset.sum_congr rfl h2, Finset.sum_const, Finset.card_range, smul_eq_mul, mul_one]
  rw [Finset.sum_congr rfl h1, Finset.sum_const, Finset.card_range, smul_eq_mul]

/-! ## Claim theorems for preprocessing and statistics -/

/-- C8: on a non-empty image whose three channel means are all equal,
gray_world_white_balance returns its input unchanged: each scale
factor globalMean / channelMean equals 1 (and a channel with mean 0 is
left unscaled), so after clipping and truncation every pixel is
reproduced exactly. -/
theorem gray_world_identity (img : Image) (hpos : 0 < img.height * img.width)
    (hbound : ∀ y, y < img.height → ∀ x, x < img.width → ∀ c : Fin 3,
      img.pix y x c ≤ 255)
    (heq01 : channelMean img 0 = channelMean img 1)
    (heq12 : channelMean img 1 = channelMean img 2)
    (y x : ℕ) (c : Fin 3) (hy : y < img.height) (hx : x < img.width) :
    (gray_world_white_balance img).pix y x c = img.pix y x c := by
  have hhw : 0 < img.height ∧ 0 < img.width := by
    constructor <;> by_contra hcon <;> simp at hcon <;> omega
  have hT : ((img.height * img.width : ℕ) : ℚ) ≠ 0 := Nat.cast_ne_zero.mpr (by omega)
  have hh0 : ((img.height : ℕ) : ℚ) ≠ 0 := Nat.cast_ne_zero.mpr (by omega)
  have hw0 : ((img.width : ℕ) : ℚ) ≠ 0 := Nat.cast_ne_zero.mpr (by omega)
  have hS01 : chanSum img 0 = chanSum img 1 := by
    unfold channelMean at heq01
    field_simp [hh0, hw0] at heq01
    exact heq01
  have hS12 : chanSum img 1 = chanSum img 2 := by
    unfold channelMean at heq12
    field_simp [hh0, hw0] at heq12
    exact heq12
  have hg0 : globalMean img = channelMean img 0 := by
    unfold globalMean channelMean
    rw [show chanSum img 1 = chanSum img 0 from hS01.symm,
        show chanSum img 2 = chanSum img 0 from (hS01.trans hS12).symm]
    push_cast
    field_simp
    ring
  have hgc : ∀ c2 : Fin 3, chanSum img c2 = chanSum img 0 := by
    intro c2
    fin_cases c2
    · rfl
    · exact hS01.symm
    · exact (hS01.trans hS12).symm
  have hg : globalMean img = channelMean img c := by
    rw [hg0]
    unfold channelMean
    rw [hgc c]
  unfold gray_world_white_balance
  dsimp only
  by_cases hmc : 0 < channelMean img c
  · rw [if_pos hmc, hg, div_self (ne_of_gt hmc), mul_one]
    exact clipUint8_natCast _ (hbound y hy x hx c)
  · rw [if_neg hmc]
    exact clipUint8_natCast _ (hbound y hy x hx c)

/-- Witness for C8 at a concrete 1 x 1 uniformly gray image. -/
theorem gray_world_identity_witness :
    (gray_world_white_balance ⟨1, 1, fun _ _ _ => 7⟩).pix 0 0 0 = 7 :=
  (gray_world_identity ⟨1, 1, fun _ _ _ => 7⟩ (by decide) (by decide)
    (by simp [channelMean, chanSum]) (by simp [channelMean, chanSum])
    0 0 0 (by decide) (by decide)).trans rfl

/-- C9: for every mask whose pixels all lie in {0,128,255}, the three
percentages count/total*100 over total = height*width sum to exactly
100; the second conjunct instantiates the claim scenario: a 100-pixel
mask with 30 background, 50 healthy and 20 diseased pixels yields the
stats (30, 50, 20). -/
theorem maskstats_correct :
    (∀ m : Mask, 0 < m.height * m.width →
      (∀ y, y < m.height → ∀ x, x < m.width →
        m.pix y x = 0 ∨ m.pix y x = 128 ∨ m.pix y x = 255) →
      (maskStats m).1 + (maskStats m).2.1 + (maskStats m).2.2 = 100)
    ∧ maskStats statsMask = (30, 50, 20) := by
  constructor
  · intro m hpos hvals
    have hcount := countVal_partition m hvals
    have hT : ((m.height * m.width : ℕ) : ℚ) ≠ 0 := Nat.cast_ne_zero.mpr (by omega)
    have hc : ((countVal m 0 : ℚ) + (countVal m 128 : ℚ) + (countVal m 255 : ℚ))
        = ((m.height * m.width : ℕ) : ℚ) := by exact_mod_cast hcount
    have hhp : 0 < m.height := Nat.pos_of_ne_zero (fun hz => by simp [hz] at hpos)
    have hwp : 0 < m.width := Nat.pos_of_ne_zero (fun hz => by simp [hz] at hpos)
    have hh0 : ((m.height : ℕ) : ℚ) ≠ 0 := Nat.cast_ne_zero.mpr (by omega)
    have hw0 : ((m.width : ℕ) : ℚ) ≠ 0 := Nat.cast_ne_zero.mpr (by omega)
    push_cast at hc
    unfold maskStats
    dsimp only
    push_cast
    field_simp
    linear_combination 100 * hc
  · have c0 : countVal statsMask 0 = 30 := by decide
    have c1 : countVal statsMask 128 = 50 := by decide
    have c2 : countVal statsMask 255 = 20 := by decide
    unfold maskStats
    rw [c0, c1, c2]
    have hh : statsMask.height = 10 := rfl
    have hw : statsMask.width = 10 := rfl
    rw [hh, hw]
    norm_num [Prod.ext_iff]

/-- Witness for C9: the three percentages of the scenario mask sum to
100. -/
theorem maskstats_correct_witness :
    (maskStats statsMask).1 + (maskStats statsMask).2.1 + (maskStats statsMask).2.2
      = 100 :=
  maskstats_correct.1 statsMask (by decide) (by decide)

/-- C6: when the input image cannot be decoded (cv2.imread returns
None, which also covers zero-area inputs since no supported raster
encoding can produce an empty decoded image), preprocess_leaf fails by
returning None for every choice of the four stage functions, and the
analyze_leaf pipeline step turns that into the failure report rather
than continuing with any substituted image. -/
theorem preprocessing_failure_aborts (wb clahe den sharp : Image → Image) :
    preprocess_leaf wb clahe den sharp none = none
    ∧ analyze_leaf_preprocess wb clahe den sharp none
        = Except.error "Preprocessing failed"
    ∧ ∀ img : Image,
        analyze_leaf_preprocess wb clahe den sharp none ≠ Except.ok img := by
  refine ⟨rfl, rfl, ?_⟩
  intro img h
  exact Except.noConfusion h
